import Mathlib

/-!
Verification development for the uzlow-webtools wallet core
(`tools/octrawallets.py` and `tools/octratx.py`).

Python values are shallowly embedded as follows: byte strings are
`List Nat` (each entry a byte value), text strings are `List Char`
(wordlist entries, which are never inspected, stay `String`),
Python `float` amounts/balances/times are `ℚ`, Python `int` is `Int`
(or `Nat` where the source value is evidently non-negative), `None`
is `Option.none`, and a Python function that can raise returns
`Option`/`Except`.  Stateful methods become pure functions from the
wallet state plus the (abstracted) HTTP responses to the new state,
the returned value, and the list of HTTP requests issued.
-/

/-! ### Bytes -/

/-- Embeds `int.from_bytes(data, 'big')`. -/
def fromBytesBE (l : List Nat) : Nat :=
  l.foldl (fun a b => a * 256 + b) 0

/-- Big-endian serialization of `n` into exactly `k` bytes
(`n.to_bytes(k, 'big')`, truncating like the sha length field). -/
def toBytesBE : Nat → Nat → List Nat
  | 0, _ => []
  | k + 1, n => toBytesBE k (n / 256) ++ [n % 256]

/-! ### SHA-256 (`hashlib.sha256`), implemented over `Nat` words mod 2^32 -/

/-- Truncation to a 32-bit word. -/
def w32 (n : Nat) : Nat := n % 4294967296

/-- Right rotation of a 32-bit word. -/
def rotr32 (n x : Nat) : Nat := w32 (x / 2 ^ n + x % 2 ^ n * 2 ^ (32 - n))

/-- Bitwise complement of a 32-bit word. -/
def not32 (x : Nat) : Nat := 4294967295 - w32 x

def shaCh (x y z : Nat) : Nat := (x &&& y) ^^^ (not32 x &&& z)

def shaMaj (x y z : Nat) : Nat := (x &&& y) ^^^ (x &&& z) ^^^ (y &&& z)

def shaBigS0 (x : Nat) : Nat := rotr32 2 x ^^^ rotr32 13 x ^^^ rotr32 22 x

def shaBigS1 (x : Nat) : Nat := rotr32 6 x ^^^ rotr32 11 x ^^^ rotr32 25 x

def shaSmallS0 (x : Nat) : Nat := rotr32 7 x ^^^ rotr32 18 x ^^^ (x >>> 3)

def shaSmallS1 (x : Nat) : Nat := rotr32 17 x ^^^ rotr32 19 x ^^^ (x >>> 10)

/-- The 64 SHA-256 round constants. -/
def shaK : List Nat :=
  [1116352408, 1899447441, 3049323471, 3921009573, 961987163, 1508970993,
   2453635748, 2870763221, 3624381080, 310598401, 607225278, 1426881987,
   1925078388, 2162078206, 2614888103, 3248222580, 3835390401, 4022224774,
   264347078, 604807628, 770255983, 1249150122, 1555081692, 1996064986,
   2554220882, 2821834349, 2952996808, 3210313671, 3336571891, 3584528711,
   113926993, 338241895, 666307205, 773529912, 1294757372, 1396182291,
   1695183700, 1986661051, 2177026350, 2456956037, 2730485921, 2820302411,
   3259730800, 3345764771, 3516065817, 3600352804, 4094571909, 275423344,
   430227734, 506948616, 659060556, 883997877, 958139571, 1322822218,
   1537002063, 1747873779, 1955562222, 2024104815, 2227730452, 2361852424,
   2428436474, 2756734187, 3204031479, 3329325298]

/-- Working state: eight 32-bit words. -/
structure Sha8 where
  a : Nat
  b : Nat
  c : Nat
  d : Nat
  e : Nat
  f : Nat
  g : Nat
  h : Nat

/-- SHA-256 initial hash value. -/
def shaInit : Sha8 :=
  ⟨1779033703, 3144134277, 1013904242, 2773480762, 1359893119, 2600822924, 528734635, 1541459225⟩

/-- One compression round. -/
def shaRound (s : Sha8) (kw : Nat × Nat) : Sha8 :=
  let t1 := w32 (s.h + shaBigS1 s.e + shaCh s.e s.f s.g + kw.1 + kw.2)
  let t2 := w32 (shaBigS0 s.a + shaMaj s.a s.b s.c)
  ⟨w32 (t1 + t2), s.a, s.b, s.c, w32 (s.d + t1), s.e, s.f, s.g⟩

/-- The 16 words of one 64-byte block. -/
def shaBlockWords (block : List Nat) : List Nat :=
  (List.range 16).map (fun i => fromBytesBE ((block.drop (4 * i)).take 4))

/-- Extend 16 words to the 64-word message schedule. -/
def shaExtend (ws : List Nat) : List Nat :=
  (List.range 48).foldl
    (fun acc _ =>
      acc ++ [w32 (shaSmallS1 (acc.getD (acc.length - 2) 0) + acc.getD (acc.length - 7) 0 +
        shaSmallS0 (acc.getD (acc.length - 15) 0) + acc.getD (acc.length - 16) 0)])
    ws

/-- Compress one 64-byte block into the running state. -/
def shaCompress (s : Sha8) (block : List Nat) : Sha8 :=
  let t := ((shaK.zip (shaExtend (shaBlockWords block))).foldl shaRound s)
  ⟨w32 (s.a + t.a), w32 (s.b + t.b), w32 (s.c + t.c), w32 (s.d + t.d),
   w32 (s.e + t.e), w32 (s.f + t.f), w32 (s.g + t.g), w32 (s.h + t.h)⟩

/-- SHA-256 padding: `0x80`, zeros to 56 mod 64, then the 64-bit bit length. -/
def shaPad (msg : List Nat) : List Nat :=
  msg ++ (128 :: List.replicate ((119 - msg.length % 64) % 64) 0) ++ toBytesBE 8 (8 * msg.length)

/-- The padded message cut into 64-byte blocks. -/
def chunks64 (l : List Nat) : List (List Nat) :=
  (List.range (l.length / 64)).map (fun b => (l.drop (b * 64)).take 64)

/-- Big-endian bytes of one 32-bit word. -/
def wordBytesBE (w : Nat) : List Nat :=
  [w / 16777216 % 256, w / 65536 % 256, w / 256 % 256, w % 256]

/-- Embeds `hashlib.sha256(msg).digest()`: the 32-byte digest. -/
def sha256 (msg : List Nat) : List Nat :=
  let s := (chunks64 (shaPad msg)).foldl shaCompress shaInit
  wordBytesBE s.a ++ wordBytesBE s.b ++ wordBytesBE s.c ++ wordBytesBE s.d ++
    wordBytesBE s.e ++ wordBytesBE s.f ++ wordBytesBE s.g ++ wordBytesBE s.h

/-! ### `tools/octrawallets.py` -/

/-- Embeds `BASE58_ALPHABET = "123456789ABCDEFGHJKLMNPQRSTUVWXYZabcdefghijkmnopqrstuvwxyz"`. -/
def BASE58_ALPHABET : List Char :=
  ['1', '2', '3', '4', '5', '6', '7', '8', '9',
   'A', 'B', 'C', 'D', 'E', 'F', 'G', 'H', 'J', 'K', 'L', 'M', 'N',
   'P', 'Q', 'R', 'S', 'T', 'U', 'V', 'W', 'X', 'Y', 'Z',
   'a', 'b', 'c', 'd', 'e', 'f', 'g', 'h', 'i', 'j', 'k',
   'm', 'n', 'o', 'p', 'q', 'r', 's', 't', 'u', 'v', 'w', 'x', 'y', 'z']

/-- The `while num > 0` loop of `base58_encode`: digits of `num` in base 58,
most significant first, each mapped through the alphabet (the Python loop
prepends `BASE58_ALPHABET[remainder]`, building the same big-endian order). -/
def b58digits (num : Nat) : List Char :=
  if h : num = 0 then []
  else b58digits (num / 58) ++ [BASE58_ALPHABET.getD (num % 58) '1']
decreasing_by exact Nat.div_lt_self (Nat.pos_of_ne_zero h) (by decide)

/-- The `for byte in data` loop: one leading `'1'` per leading zero byte. -/
def leadingZeroCount : List Nat → Nat
  | [] => 0
  | b :: rest => if b = 0 then leadingZeroCount rest + 1 else 0

/-- Embeds `base58_encode(data)` from `tools/octrawallets.py`. -/
def base58_encode (data : List Nat) : List Char :=
  if data = [] then []
  else List.replicate (leadingZeroCount data) '1' ++ b58digits (fromBytesBE data)

/-- Embeds `create_octra_address(public_key) = "oct" + base58_encode(sha256(public_key))`. -/
def create_octra_address (public_key : List Nat) : List Char :=
  ['o', 'c', 't'] ++ base58_encode (sha256 public_key)

/-- Embeds `verify_address_format(address)` from `tools/octrawallets.py`. -/
def verify_address_format (address : List Char) : Bool :=
  if address.take 3 ≠ ['o', 'c', 't'] then false
  else if address.length < 20 ∨ address.length > 50 then false
  else (address.drop 3).all (fun c => c ∈ BASE58_ALPHABET)

/-- The 11-bit group taken at loop index `i`:
`(combined >> (bits - (i + 1) * 11)) & 0x7FF`. -/
def wordIndexAt (combined bits i : Nat) : Nat :=
  (combined >>> (bits - (i + 1) * 11)) &&& 2047

/-- The `combined` big integer of `entropy_to_mnemonic`: the checksum is taken
from the first digest byte only, `int.from_bytes(checksum[:1]) >> (8 - checksum_bits)`. -/
def mnemonicCombined (entropy : List Nat) : Nat :=
  let checksum_bits := entropy.length * 8 / 32
  let checksum_int := fromBytesBE ((sha256 entropy).take 1) >>> (8 - checksum_bits)
  (fromBytesBE entropy <<< checksum_bits) ||| checksum_int

/-- Embeds `entropy_to_mnemonic(entropy, wordlist)`: `none` models the `IndexError`
raised when `wordlist[word_index]` is out of range. -/
def entropy_to_mnemonic (entropy : List Nat) (wordlist : List String) : Option (List String) :=
  let checksum_bits := entropy.length * 8 / 32
  let bits := entropy.length * 8 + checksum_bits
  (List.range (bits / 11)).mapM
    (fun i => wordlist[wordIndexAt (mnemonicCombined entropy) bits i]?)

/-- Modelled from the spec sentence behind `load_wordlist` (the file I/O is
abstracted away: the argument is the list of stripped non-empty lines):
a wordlist of any length other than 2048 fails with the `ValueError`
`"Wordlist must contain 2048 words"`. -/
def load_wordlist (words : List String) : Except String (List String) :=
  if words.length ≠ 2048 then Except.error "Wordlist must contain 2048 words"
  else Except.ok words

/-- Spec-side description of the checksum: the top `checksum_bits` bits of the
full 256-bit digest integer (the code instead shifts the first digest byte;
the two agree, which is proved below). -/
def specChecksumInt (entropy : List Nat) : Nat :=
  fromBytesBE (sha256 entropy) >>> (256 - entropy.length * 8 / 32)

/-- Spec-side `combined`: entropy bits followed by the top checksum bits. -/
def specCombined (entropy : List Nat) : Nat :=
  (fromBytesBE entropy <<< (entropy.length * 8 / 32)) ||| specChecksumInt entropy

/-! ### `tools/octratx.py` -/

/-- Hex digit character, for `hexdigest()`. -/
def hexDigitChar (n : Nat) : Char := "0123456789abcdef".toList.getD n '0'

/-- Embeds `hashlib.sha256(b).hexdigest()`. -/
def sha256hex (b : List Nat) : List Char :=
  (sha256 b).flatMap (fun x => [hexDigitChar (x / 16), hexDigitChar (x % 16)])

def base64Alphabet : List Char :=
  "ABCDEFGHIJKLMNOPQRSTUVWXYZabcdefghijklmnopqrstuvwxyz0123456789+/".toList

/-- Embeds `base64.b64encode`. -/
def base64encode : List Nat → List Char
  | [] => []
  | [b1] =>
    [base64Alphabet.getD (b1 >>> 2) 'A', base64Alphabet.getD ((b1 &&& 3) <<< 4) 'A', '=', '=']
  | [b1, b2] =>
    [base64Alphabet.getD (b1 >>> 2) 'A', base64Alphabet.getD (((b1 &&& 3) <<< 4) ||| (b2 >>> 4)) 'A',
     base64Alphabet.getD ((b2 &&& 15) <<< 2) 'A', '=']
  | b1 :: b2 :: b3 :: rest =>
    [base64Alphabet.getD (b1 >>> 2) 'A', base64Alphabet.getD (((b1 &&& 3) <<< 4) ||| (b2 >>> 4)) 'A',
     base64Alphabet.getD (((b2 &&& 15) <<< 2) ||| (b3 >>> 6)) 'A', base64Alphabet.getD (b3 &&& 63) 'A']
      ++ base64encode rest

/-- Embeds `str.encode()`; every text serialized here is ASCII, so byte = code point. -/
def strToBytes (s : List Char) : List Nat := s.map Char.toNat

/-- Python `int(float)`: truncation toward zero. -/
def pyTrunc (q : ℚ) : Int := if 0 ≤ q then ⌊q⌋ else ⌈q⌉

/-- Embeds `str(int(amount * self.MICROUNIT))` with `MICROUNIT = 1_000_000`. -/
def amountMicroStr (amount : ℚ) : List Char := (toString (pyTrunc (amount * 1000000))).toList

/-- The fee tier: `"1" if amount < 1000 else "3"`. -/
def ouTag (amount : ℚ) : List Char := if amount < 1000 then ['1'] else ['3']

/-- The transaction record after `tx.update(...)`: the six built fields in dict
insertion order, then `signature` and `public_key`.  `timestamp` carries the
JSON rendering of the jittered float (`time.time() + random.random() * 0.01`),
which enters the embedding as a parameter. -/
structure SignedTx where
  from_ : List Char
  to_ : List Char
  amount : List Char
  nonce : Int
  ou : List Char
  timestamp : List Char
  signature : List Char
  public_key : List Char
deriving DecidableEq

/-- The common prefix of `json.dumps(tx, separators=(",", ":"))`: the six
original keys in insertion order, no whitespace. -/
def txJsonCore (from_ to_ amount : List Char) (nonce : Int) (ou ts : List Char) : List Char :=
  "\x7b\"from\":\"".toList ++ from_ ++ "\",\"to_\":\"".toList ++ to_
    ++ "\",\"amount\":\"".toList ++ amount ++ "\",\"nonce\":".toList ++ (toString nonce).toList
    ++ ",\"ou\":\"".toList ++ ou ++ "\",\"timestamp\":".toList ++ ts

/-- Embeds `tx_bytes`' text: the canonical serialization captured before `tx.update`. -/
def unsignedTxJson (from_ to_ amount : List Char) (nonce : Int) (ou ts : List Char) : List Char :=
  txJsonCore from_ to_ amount nonce ou ts ++ "\x7d".toList

/-- The serialization of the signed envelope (what `json=tx` would post):
the same six fields followed by `signature` and `public_key`. -/
def signedTxJson (tx : SignedTx) : List Char :=
  txJsonCore tx.from_ tx.to_ tx.amount tx.nonce tx.ou tx.timestamp
    ++ ",\"signature\":\"".toList ++ tx.signature
    ++ "\",\"public_key\":\"".toList ++ tx.public_key ++ "\"\x7d".toList

/-- Embeds `OctraWallet._create_transaction`.  `sign` abstracts
`self.signing_key.sign(...).signature` (Ed25519), `ts` the rendered timestamp. -/
def create_transaction (sign : List Nat → List Nat) (selfAddress public_key : List Char)
    (to_address : List Char) (amount : ℚ) (nonce : Int) (ts : List Char) :
    SignedTx × List Char :=
  let amt := amountMicroStr amount
  let ou := ouTag amount
  let txBytes := strToBytes (unsignedTxJson selfAddress to_address amt nonce ou ts)
  let signature := base64encode (sign txBytes)
  (⟨selfAddress, to_address, amt, nonce, ou, ts, signature, public_key⟩, sha256hex txBytes)

/-- Payload bound to `_request`'s `data` parameter. -/
inductive ReqPayload where
  | noPayload : ReqPayload
  | intPayload : Nat → ReqPayload
  | txPayload : SignedTx → ReqPayload
deriving DecidableEq

/-- The argument record of one `_request(method, path, data=None, timeout=10)`
call after Python binds positional and keyword arguments and defaults. -/
structure RequestCall where
  method : List Char
  path : List Char
  payload : ReqPayload
  timeout : Nat
deriving DecidableEq

/-- Embeds `self._request('GET', f'/balance/{self.address}')` in `get_status`. -/
def balanceCall (address : List Char) : RequestCall :=
  ⟨"GET".toList, "/balance/".toList ++ address, ReqPayload.noPayload, 10⟩

/-- Embeds `self._request('GET', '/staging', 5)` in `get_status`: `5` is the third
positional argument, so it binds to `data`; `timeout` keeps its default 10. -/
def stagingCallInGetStatus : RequestCall :=
  ⟨"GET".toList, "/staging".toList, ReqPayload.intPayload 5, 10⟩

/-- Embeds `self._request('GET', '/staging', timeout=5)` in `get_pending_transactions`. -/
def stagingCallInGetPending : RequestCall :=
  ⟨"GET".toList, "/staging".toList, ReqPayload.noPayload, 5⟩

/-- Embeds `self._request('POST', '/send-tx', tx)` in `send_transaction`. -/
def sendTxCall (tx : SignedTx) : RequestCall :=
  ⟨"POST".toList, "/send-tx".toList, ReqPayload.txPayload tx, 10⟩

/-- What `get_status` reads from a parsed `/balance` body:
`int(json_data.get('nonce', 0))` and `float(json_data.get('balance', 0))`. -/
structure BalanceJson where
  nonce : Int
  balance : ℚ
deriving DecidableEq

/-- One entry of `staged_transactions`: `tx.get('from')` and
`int(tx.get('nonce', 0))`. -/
structure StagedTx where
  sender : Option (List Char)
  nonce : Int
deriving DecidableEq

structure StagingJson where
  staged_transactions : List StagedTx
deriving DecidableEq

/-- A `(status, text, json_data)` triple returned by `_request`.  `status = 0`
covers timeouts and transport errors; `json = none` covers bodies that fail
`json.loads` and falsy parses (both take the `not json_data` branches). -/
structure HttpResp (α : Type) where
  status : Nat
  text : List Char
  json : Option α
deriving DecidableEq

/-- The cache fields of `OctraWallet` touched by `get_status` /
`send_transaction` (`balance_cache`, `nonce_cache`, `last_update`; the
bounded history cache is orthogonal to every claim and not carried). -/
structure WalletState where
  nonce_cache : Option Int
  balance_cache : Option ℚ
  last_update : ℚ
deriving DecidableEq

/-- Embeds `text.strip().split()`: split on whitespace runs, no empty tokens. -/
def pySplitAux : List Char → List Char → List (List Char)
  | [], cur => if cur = [] then [] else [cur.reverse]
  | c :: rest, cur =>
    if c.isWhitespace then
      if cur = [] then pySplitAux rest [] else cur.reverse :: pySplitAux rest []
    else pySplitAux rest (c :: cur)

def pySplit (text : List Char) : List (List Char) := pySplitAux text []

/-- Embeds `s.isdigit()` (ASCII model): non-empty and all digits. -/
def pyIsDigit (s : List Char) : Bool := !s.isEmpty && s.all Char.isDigit

/-- Embeds `parts[0].replace('.', '')`. -/
def dotStripped (s : List Char) : List Char := s.filter (fun c => c ≠ '.')

/-- The guard `parts[0].replace('.', '').isdigit()`. -/
def balTokenDigitCheck (s : List Char) : Bool := pyIsDigit (dotStripped s)

/-- Embeds `float(parts[0])` raises `ValueError` despite the digit-check passing
exactly when the token has two or more dots (e.g. `"1.2.3"`). -/
def floatParseRaises (s : List Char) : Bool :=
  balTokenDigitCheck s && decide (2 ≤ s.count '.')

/-- Numeric value of an ASCII digit string. -/
def digitsVal (s : List Char) : Nat := s.foldl (fun a c => a * 10 + (c.toNat - 48)) 0

/-- Embeds `float(s)` for a token passing the digit-check with at most one dot
(rationals model the parsed value; the claims only depend on branch choice). -/
def parseBalFloat (s : List Char) : ℚ :=
  let ip := s.takeWhile (fun c => c ≠ '.')
  let fp := (s.dropWhile (fun c => c ≠ '.')).drop 1
  (digitsVal ip : ℚ) + (digitsVal fp : ℚ) / (10 : ℚ) ^ fp.length

/-- Python `max` over a non-empty list (`[]` is never reached: the call is
guarded by `if our_txs`). -/
def pyListMax : List Int → Int
  | [] => 0
  | x :: xs => xs.foldl max x

/-- Embeds `OctraWallet.get_status(force_refresh)`.  Inputs: the wallet's address,
cache state, `time.time()`, and the two gathered responses.  Output: the new
cache state, the returned `(nonce, balance)` pair, and the requests issued. -/
def get_status (selfAddress : List Char) (st : WalletState) (force_refresh : Bool) (now : ℚ)
    (balResp : HttpResp BalanceJson) (stagResp : HttpResp StagingJson) :
    WalletState × (Option Int × Option ℚ) × List RequestCall :=
  if force_refresh = false ∧ st.balance_cache ≠ none ∧ now - st.last_update < 30 then
    (st, (st.nonce_cache, st.balance_cache), [])
  else
    let st1 :=
      if balResp.status = 200 then
        match balResp.json with
        | some j =>
          let nonce0 : Int := j.nonce
          let nonce1 :=
            if stagResp.status = 200 then
              match stagResp.json with
              | some sj =>
                let our_txs := sj.staged_transactions.filter
                  (fun tx => tx.sender = some selfAddress)
                if our_txs ≠ [] then max nonce0 (pyListMax (our_txs.map StagedTx.nonce))
                else nonce0
              | none => nonce0
            else nonce0
          ⟨some nonce1, some j.balance, now⟩
        | none =>
          if balResp.text ≠ [] then
            let parts := pySplit balResp.text
            if 2 ≤ parts.length then
              let t0 := parts.getD 0 []
              let t1 := parts.getD 1 []
              if floatParseRaises t0 then { st with nonce_cache := none, balance_cache := none }
              else
                ⟨some (if pyIsDigit t1 then (digitsVal t1 : Int) else 0),
                 some (if balTokenDigitCheck t0 then parseBalFloat t0 else 0),
                 now⟩
            else { st with nonce_cache := none, balance_cache := none }
          else st
      else if balResp.status = 404 then ⟨some 0, some 0, now⟩
      else st
    (st1, (st1.nonce_cache, st1.balance_cache), [balanceCall selfAddress, stagingCallInGetStatus])

/-- The character class `[1-9A-HJ-NP-Za-km-z]` of `ADDRESS_PATTERN`, expanded
range by range: `1-9`, `A-H`, `J-N`, `P-Z`, `a-k`, `m-z`. -/
def addressClassChars : List Char :=
  ['1', '2', '3', '4', '5', '6', '7', '8', '9']
    ++ ['A', 'B', 'C', 'D', 'E', 'F', 'G', 'H']
    ++ ['J', 'K', 'L', 'M', 'N']
    ++ ['P', 'Q', 'R', 'S', 'T', 'U', 'V', 'W', 'X', 'Y', 'Z']
    ++ ['a', 'b', 'c', 'd', 'e', 'f', 'g', 'h', 'i', 'j', 'k']
    ++ ['m', 'n', 'o', 'p', 'q', 'r', 's', 't', 'u', 'v', 'w', 'x', 'y', 'z']

/-- Embeds the body of `ADDRESS_PATTERN = re.compile(r"^oct[1-9A-HJ-NP-Za-km-z]{44}$")`
matched against the whole string: `"oct"` followed by exactly 44 class
characters, total length 47. -/
def ADDRESS_PATTERN_body (s : List Char) : Bool :=
  decide (s.take 3 = ['o', 'c', 't']) && decide (s.length = 47)
    && (s.drop 3).all (fun c => c ∈ addressClassChars)

/-- Embeds `ADDRESS_PATTERN.match(s)`: Python's `$` matches at the end of the
string or just before one newline that ends it, so `re.match` accepts the
47-character body alone or followed by a single trailing `'\n'`. -/
def ADDRESS_PATTERN (s : List Char) : Bool :=
  ADDRESS_PATTERN_body s ||
    (decide (s.getLast? = some '\n') && ADDRESS_PATTERN_body s.dropLast)

/-- Embeds `AMOUNT_PATTERN.match(str(amount))` for a float `amount`: `str` renders a
non-negative float in plain decimal (matched by `^\d+(\.\d+)?$`) exactly for
`0.0` and for values in `[1e-4, 1e16)`; elsewhere it uses scientific notation
or a minus sign, which the pattern rejects. -/
def AMOUNT_PATTERN (amount : ℚ) : Bool :=
  decide (0 ≤ amount)
    && (decide (amount = 0) || (decide (1 / 10000 ≤ amount) && decide (amount < 10 ^ 16)))

inductive OctraWalletError where
  | invalidAddress : OctraWalletError
  | invalidAmount : OctraWalletError
  | nonceUnavailable : OctraWalletError
  | insufficientBalance : ℚ → ℚ → OctraWalletError
deriving DecidableEq

/-- The result dict of a send: `success`, `hash` (may be empty), and the
error payload text for failures. -/
structure SendResult where
  success : Bool
  hash : List Char
  errText : List Char
deriving DecidableEq

/-- What `send_transaction` reads from a parsed `/send-tx` body:
`json_data.get('status')` and `json_data.get('tx_hash')`. -/
structure SendTxJson where
  statusField : Option (List Char)
  tx_hash : Option (List Char)
deriving DecidableEq

/-- Embeds `text.split()[-1] if ' ' in text else default`. -/
def okTextHash (text : List Char) (dflt : List Char) : List Char :=
  if ' ' ∈ text then (pySplit text).getLastD [] else dflt

/-- Embeds `OctraWallet.send_transaction(to_address, amount)`.  Inputs as for
`get_status` plus the `/send-tx` response and the signing artifacts.  Output:
the raised error or returned result dict, the new cache state, and the
requests issued in order. -/
def send_transaction (sign : List Nat → List Nat) (selfAddress public_key : List Char)
    (st : WalletState) (now : ℚ) (ts : List Char)
    (balResp : HttpResp BalanceJson) (stagResp : HttpResp StagingJson)
    (postResp : HttpResp SendTxJson) (to_address : List Char) (amount : ℚ) :
    Except OctraWalletError SendResult × WalletState × List RequestCall :=
  if ¬ ADDRESS_PATTERN to_address then (Except.error OctraWalletError.invalidAddress, st, [])
  else if ¬ AMOUNT_PATTERN amount ∨ amount ≤ 0 then
    (Except.error OctraWalletError.invalidAmount, st, [])
  else
    let gs := get_status selfAddress st true now balResp stagResp
    match gs.2.1.1 with
    | none => (Except.error OctraWalletError.nonceUnavailable, gs.1, gs.2.2)
    | some nonce =>
      if match gs.2.1.2 with | none => true | some b => b = 0 ∨ b < amount then
        -- `if not balance or balance < amount` (for `balance = None` the
        -- f-string itself raises; both are the same no-submission failure)
        (Except.error (OctraWalletError.insufficientBalance ((gs.2.1.2).getD 0) amount),
         gs.1, gs.2.2)
      else
        let ct := create_transaction sign selfAddress public_key to_address amount (nonce + 1) ts
        let sr : SendResult :=
          if postResp.status = 200 then
            match postResp.json with
            | some pj =>
              if pj.statusField = some "accepted".toList then
                ⟨true, pj.tx_hash.getD ct.2, []⟩
              else if ("ok".toList).isPrefixOf (postResp.text.map Char.toLower) then
                ⟨true, okTextHash postResp.text ct.2, []⟩
              else ⟨false, [], postResp.text⟩
            | none =>
              if ("ok".toList).isPrefixOf (postResp.text.map Char.toLower) then
                ⟨true, okTextHash postResp.text ct.2, []⟩
              else ⟨false, [], postResp.text⟩
          else ⟨false, [], postResp.text⟩
        let st2 := if sr.success then { gs.1 with last_update := 0 } else gs.1
        (Except.ok sr, st2, gs.2.2 ++ [sendTxCall ct.1])

/-- Embeds `batches = [recipients[i:i+batch_size] for i in range(0, len(recipients), batch_size)]`:
`range(0, n, k)` has `⌈n / k⌉` elements, the `b`-th slice starts at `b * k`. -/
def txBatches {α : Type} (recipients : List α) (batch_size : Nat) : List (List α) :=
  (List.range ((recipients.length + batch_size - 1) / batch_size)).map
    (fun b => (recipients.drop (b * batch_size)).take batch_size)

/-- The nonce pre-assignment of `send_multiple_transactions`: for
`batch_idx, batch in enumerate(batches)` and `i, (to, amt) in enumerate(batch)`,
`tx_nonce = nonce + 1 + (batch_idx * batch_size) + i`. -/
def batchAssignments {α : Type} (base_nonce : Int) (recipients : List α) (batch_size : Nat) :
    List (α × Int) :=
  (txBatches recipients batch_size).enum.flatMap
    (fun bB => bB.2.enum.map
      (fun ir => (ir.2, base_nonce + 1 + ((bB.1 * batch_size : Nat) : Int) + (ir.1 : Int))))

/-! ## Helper lemmas -/

theorem fromBytesBE_foldl_acc (l : List Nat) : ∀ a : Nat,
    l.foldl (fun x b => x * 256 + b) a = a * 256 ^ l.length + fromBytesBE l := by
  induction l with
  | nil => intro a; simp [fromBytesBE]
  | cons x xs ih =>
    intro a
    simp only [List.foldl_cons, fromBytesBE, List.length_cons]
    rw [ih (a * 256 + x), ih (0 * 256 + x)]
    ring

theorem fromBytesBE_cons (x : Nat) (xs : List Nat) :
    fromBytesBE (x :: xs) = x * 256 ^ xs.length + fromBytesBE xs := by
  simpa [fromBytesBE] using fromBytesBE_foldl_acc xs (0 * 256 + x)

theorem fromBytesBE_append (xs ys : List Nat) :
    fromBytesBE (xs ++ ys) = fromBytesBE xs * 256 ^ ys.length + fromBytesBE ys := by
  simpa [fromBytesBE, List.foldl_append] using fromBytesBE_foldl_acc ys (fromBytesBE xs)

theorem fromBytesBE_zeros {l : List Nat} (h : ∀ x ∈ l, x = 0) : fromBytesBE l = 0 := by
  induction l with
  | nil => rfl
  | cons x xs ih =>
    rw [fromBytesBE_cons, h x (List.mem_cons_self x xs),
      ih (fun y hy => h y (List.mem_cons_of_mem x hy))]
    simp

theorem fromBytesBE_lt {l : List Nat} (h : ∀ x ∈ l, x < 256) :
    fromBytesBE l < 256 ^ l.length := by
  induction l with
  | nil => simp [fromBytesBE]
  | cons x xs ih =>
    rw [fromBytesBE_cons, List.length_cons, pow_succ]
    have hx : x < 256 := h x (List.mem_cons_self x xs)
    have hxs := ih (fun y hy => h y (List.mem_cons_of_mem x hy))
    calc x * 256 ^ xs.length + fromBytesBE xs
        < x * 256 ^ xs.length + 256 ^ xs.length := by omega
      _ = (x + 1) * 256 ^ xs.length := by ring
      _ ≤ 256 * 256 ^ xs.length := Nat.mul_le_mul_right _ (by omega)
      _ = 256 ^ xs.length * 256 := by ring

theorem sha256_length (msg : List Nat) : (sha256 msg).length = 32 := by
  simp [sha256, wordBytesBE]

theorem wordBytesBE_lt (w : Nat) : ∀ x ∈ wordBytesBE w, x < 256 := by
  intro x hx
  simp only [wordBytesBE, List.mem_cons, List.not_mem_nil, or_false] at hx
  rcases hx with h | h | h | h <;> subst h <;> exact Nat.mod_lt _ (by norm_num)

theorem sha256_bytes_lt (msg : List Nat) : ∀ x ∈ sha256 msg, x < 256 := by
  intro x hx
  simp only [sha256, List.mem_append] at hx
  have hw : ∀ w : Nat, x ∈ wordBytesBE w → x < 256 := fun w h => wordBytesBE_lt w x h
  tauto

theorem leadingZeroCount_le (l : List Nat) : leadingZeroCount l ≤ l.length := by
  induction l with
  | nil => simp [leadingZeroCount]
  | cons b rest ih =>
    simp only [leadingZeroCount, List.length_cons]
    split <;> omega

theorem take_leadingZeroCount_zeros (l : List Nat) :
    ∀ x ∈ l.take (leadingZeroCount l), x = 0 := by
  induction l with
  | nil => simp
  | cons b rest ih =>
    simp only [leadingZeroCount]
    split
    · rename_i hb
      intro x hx
      rw [List.take_succ_cons] at hx
      rcases List.mem_cons.mp hx with h | h
      · omega
      · exact ih x h
    · simp

theorem drop_leadingZeroCount (l : List Nat) (h : leadingZeroCount l < l.length) :
    ∃ b rest, l.drop (leadingZeroCount l) = b :: rest ∧ b ≠ 0 := by
  induction l with
  | nil => simp at h
  | cons x xs ih =>
    by_cases hx : x = 0
    · have hz : leadingZeroCount (x :: xs) = leadingZeroCount xs + 1 := by
        simp [leadingZeroCount, hx]
      rw [hz] at h ⊢
      simp only [List.length_cons] at h
      simpa [List.drop_succ_cons] using ih (by omega)
    · have hz : leadingZeroCount (x :: xs) = 0 := by simp [leadingZeroCount, hx]
      exact ⟨x, xs, by simp [hz], hx⟩

theorem b58digits_eq (n : Nat) (hn : n ≠ 0) :
    b58digits n = b58digits (n / 58) ++ [BASE58_ALPHABET.getD (n % 58) '1'] := by
  rw [b58digits]
  simp [hn]

theorem b58digits_zero : b58digits 0 = [] := by
  rw [b58digits]
  simp

theorem length_b58digits (n : Nat) :
    (b58digits n).length = (Nat.digits 58 n).length := by
  induction n using Nat.strong_induction_on with
  | _ n ih =>
    by_cases hn : n = 0
    · subst hn; simp [b58digits_zero]
    · rw [b58digits_eq n hn, Nat.digits_def' (by norm_num : (1:ℕ) < 58) (Nat.pos_of_ne_zero hn),
        List.length_append, List.length_cons,
        ih (n / 58) (Nat.div_lt_self (Nat.pos_of_ne_zero hn) (by norm_num))]
      simp

theorem b58digits_mem (n : Nat) : ∀ c ∈ b58digits n, c ∈ BASE58_ALPHABET := by
  induction n using Nat.strong_induction_on with
  | _ n ih =>
    by_cases hn : n = 0
    · subst hn; simp [b58digits_zero]
    · rw [b58digits_eq n hn]
      intro c hc
      rcases List.mem_append.mp hc with h | h
      · exact ih (n / 58) (Nat.div_lt_self (Nat.pos_of_ne_zero hn) (by norm_num)) c h
      · have hc' : c = BASE58_ALPHABET.getD (n % 58) '1' := by simpa using h
        subst hc'
        have hlt : n % 58 < BASE58_ALPHABET.length := by
          have h58 : n % 58 < 58 := Nat.mod_lt _ (by norm_num)
          simpa [BASE58_ALPHABET] using h58
        rw [List.getD_eq_getElem _ _ hlt]
        exact List.getElem_mem _

theorem digits_len_le_of_lt_pow {n t : Nat} (h : n < 58 ^ t) :
    (Nat.digits 58 n).length ≤ t := by
  by_cases hn : n = 0
  · subst hn; simp
  · have h1 := Nat.base_pow_length_digits_le 58 n (by norm_num) hn
    have h2 : (58:ℕ) ^ (Nat.digits 58 n).length < 58 ^ (t + 1) := by
      calc (58:ℕ) ^ (Nat.digits 58 n).length ≤ 58 * n := h1
        _ < 58 * 58 ^ t := by omega
        _ = 58 ^ (t + 1) := by ring
    have h3 := (Nat.pow_lt_pow_iff_right (by norm_num : 1 < 58)).mp h2
    omega

theorem lt_digits_len_of_pow_le {n t : Nat} (h : 58 ^ t ≤ n) :
    t < (Nat.digits 58 n).length := by
  have h2 : n < 58 ^ (Nat.digits 58 n).length :=
    Nat.lt_base_pow_length_digits (by norm_num : 1 < 58)
  exact (Nat.pow_lt_pow_iff_right (by norm_num : 1 < 58)).mp (Nat.lt_of_le_of_lt h h2)

theorem pow256_le_pow58 {m : Nat} (hm : m ≤ 32) : 256 ^ m ≤ 58 ^ (m + 12) := by
  have key : (256:ℕ) ^ m * 256 ^ (32 - m) ≤ 58 ^ (m + 12) * 256 ^ (32 - m) := by
    calc (256:ℕ) ^ m * 256 ^ (32 - m) = 256 ^ 32 := by
          rw [← pow_add]; congr 1; omega
      _ ≤ 58 ^ 44 := by norm_num
      _ = 58 ^ (m + 12) * 58 ^ (32 - m) := by rw [← pow_add]; congr 1; omega
      _ ≤ 58 ^ (m + 12) * 256 ^ (32 - m) :=
          Nat.mul_le_mul_left _ (Nat.pow_le_pow_left (by norm_num) _)
  exact Nat.le_of_mul_le_mul_right key (Nat.pos_pow_of_pos _ (by norm_num))

theorem base58_encode_mem (data : List Nat) :
    ∀ c ∈ base58_encode data, c ∈ BASE58_ALPHABET := by
  intro c hc
  by_cases hne : data = []
  · subst hne; simp [base58_encode] at hc
  · simp only [base58_encode, if_neg hne] at hc
    rcases List.mem_append.mp hc with h | h
    · have hc1 : c = '1' := List.eq_of_mem_replicate h
      subst hc1; decide
    · exact b58digits_mem _ c h

theorem base58_encode_length_bounds (data : List Nat) (hlen : data.length = 32)
    (hbytes : ∀ x ∈ data, x < 256) :
    32 ≤ (base58_encode data).length ∧ (base58_encode data).length ≤ 44 := by
  have hne : data ≠ [] := by
    intro h
    rw [h] at hlen
    simp at hlen
  set z := leadingZeroCount data with hzdef
  have hz32 : z ≤ 32 := hlen ▸ leadingZeroCount_le data
  have hdroplen : (data.drop z).length = 32 - z := by
    rw [List.length_drop, hlen]
  have hnum : fromBytesBE data = fromBytesBE (data.drop z) := by
    conv_lhs => rw [← List.take_append_drop z data]
    rw [fromBytesBE_append, fromBytesBE_zeros (take_leadingZeroCount_zeros data)]
    simp
  have hlen2 : (base58_encode data).length =
      z + (Nat.digits 58 (fromBytesBE data)).length := by
    simp only [base58_encode, if_neg hne, List.length_append, List.length_replicate,
      length_b58digits]
  have hub : fromBytesBE data < 58 ^ (32 - z + 12) := by
    rw [hnum]
    calc fromBytesBE (data.drop z) < 256 ^ (data.drop z).length :=
          fromBytesBE_lt (fun x hx => hbytes x (List.mem_of_mem_drop hx))
      _ = 256 ^ (32 - z) := by rw [hdroplen]
      _ ≤ 58 ^ (32 - z + 12) := pow256_le_pow58 (by omega)
  have hdle : (Nat.digits 58 (fromBytesBE data)).length ≤ 32 - z + 12 :=
    digits_len_le_of_lt_pow hub
  have hlb : 32 ≤ z + (Nat.digits 58 (fromBytesBE data)).length := by
    by_cases hz : z = 32
    · have hdrop : data.drop z = [] := by
        apply List.eq_nil_of_length_eq_zero
        omega
      omega
    · have hzlt : z < data.length := by omega
      obtain ⟨b, rest, hdrop, hb⟩ := drop_leadingZeroCount data hzlt
      have hrest : rest.length = 31 - z := by
        rw [hdrop] at hdroplen
        simp only [List.length_cons] at hdroplen
        omega
      have hge : 58 ^ (31 - z) ≤ fromBytesBE data := by
        rw [hnum, hdrop, fromBytesBE_cons]
        calc (58:ℕ) ^ (31 - z) ≤ 256 ^ (31 - z) := Nat.pow_le_pow_left (by norm_num) _
          _ = 1 * 256 ^ rest.length := by rw [hrest]; ring
          _ ≤ b * 256 ^ rest.length := Nat.mul_le_mul_right _ (by omega)
          _ ≤ b * 256 ^ rest.length + fromBytesBE rest := Nat.le_add_right _ _
      have hgt := lt_digits_len_of_pow_le hge
      omega
  omega

/-- C7: for every public-key byte string, `create_address` returns a string
starting with "oct", and `verify_address_format` accepts it: the prefix is
"oct", the total length lands in [20, 50] (in fact in [35, 47]), and every
character after the prefix is drawn from the 58-symbol alphabet. -/
theorem C7_create_address_verified (public_key : List Nat) :
    (create_octra_address public_key).take 3 = ['o', 'c', 't'] ∧
    verify_address_format (create_octra_address public_key) = true := by
  have hb := base58_encode_length_bounds (sha256 public_key) (sha256_length public_key)
    (sha256_bytes_lt public_key)
  have hmem := base58_encode_mem (sha256 public_key)
  have h1 : (create_octra_address public_key).take 3 = ['o', 'c', 't'] := rfl
  refine ⟨h1, ?_⟩
  have h2 : (create_octra_address public_key).length =
      3 + (base58_encode (sha256 public_key)).length := by
    simp [create_octra_address]
    omega
  unfold verify_address_format
  rw [if_neg (by simp [h1]), if_neg (by rw [h2]; omega)]
  have h3 : (create_octra_address public_key).drop 3 = base58_encode (sha256 public_key) := rfl
  rw [h3, List.all_eq_true]
  intro c hc
  simpa using hmem c hc

theorem mapM_getElem?_of_lt {α : Type} (wl : List α) (d : α) (g : Nat → Nat) (idxs : List Nat)
    (h : ∀ i ∈ idxs, g i < wl.length) :
    idxs.mapM (fun i => wl[g i]?) = some (idxs.map (fun i => wl.getD (g i) d)) := by
  induction idxs with
  | nil => rfl
  | cons a as ih =>
    have ha : g a < wl.length := h a (List.mem_cons_self a as)
    rw [List.mapM_cons, ih (fun i hi => h i (List.mem_cons_of_mem a hi))]
    simp [List.getElem?_eq_getElem ha, List.getD_eq_getElem wl d ha]

theorem entropy_to_mnemonic_eq_map (entropy : List Nat) (wordlist : List String)
    (hwl : 2048 ≤ wordlist.length) :
    entropy_to_mnemonic entropy wordlist =
      some ((List.range ((entropy.length * 8 + entropy.length * 8 / 32) / 11)).map
        (fun i => wordlist.getD
          (wordIndexAt (mnemonicCombined entropy)
            (entropy.length * 8 + entropy.length * 8 / 32) i) "")) := by
  simp only [entropy_to_mnemonic]
  apply mapM_getElem?_of_lt wordlist ""
    (fun i => wordIndexAt (mnemonicCombined entropy)
      (entropy.length * 8 + entropy.length * 8 / 32) i)
  intro i _
  calc wordIndexAt (mnemonicCombined entropy) _ i ≤ 2047 := Nat.and_le_right
    _ < wordlist.length := by omega

theorem entropy_to_mnemonic_isSome (entropy : List Nat) (wordlist : List String)
    (hwl : 2048 ≤ wordlist.length) :
    (entropy_to_mnemonic entropy wordlist).isSome = true := by
  rw [entropy_to_mnemonic_eq_map entropy wordlist hwl]
  rfl

theorem mnemonicCombined_eq_specCombined (entropy : List Nat)
    (hcb : entropy.length * 8 / 32 ≤ 8) :
    mnemonicCombined entropy = specCombined entropy := by
  obtain ⟨d0, rest, hd⟩ : ∃ d0 rest, sha256 entropy = d0 :: rest := by
    cases hsha : sha256 entropy with
    | nil => have h32 := sha256_length entropy; rw [hsha] at h32; simp at h32
    | cons d0 rest => exact ⟨d0, rest, rfl⟩
  have hrest : rest.length = 31 := by
    have h32 := sha256_length entropy
    rw [hd] at h32
    simpa using h32
  have hrestlt : fromBytesBE rest < 2 ^ 248 := by
    have hb : ∀ x ∈ rest, x < 256 := by
      intro x hx
      exact sha256_bytes_lt entropy x (hd ▸ List.mem_cons_of_mem d0 hx)
    calc fromBytesBE rest < 256 ^ rest.length := fromBytesBE_lt hb
      _ = 2 ^ 248 := by rw [hrest]; norm_num
  have htop : fromBytesBE (sha256 entropy) >>> 248 = d0 := by
    rw [hd, fromBytesBE_cons, hrest, Nat.shiftRight_eq_div_pow]
    have h256 : (256:ℕ) ^ 31 = 2 ^ 248 := by norm_num
    rw [h256, Nat.mul_comm d0 (2 ^ 248), Nat.mul_add_div (by norm_num : (0:ℕ) < 2 ^ 248),
      Nat.div_eq_of_lt hrestlt]
    omega
  have htake : fromBytesBE ((sha256 entropy).take 1) = d0 := by
    rw [hd]
    simp [fromBytesBE]
  simp only [mnemonicCombined, specCombined, specChecksumInt]
  rw [htake, ← htop, ← Nat.shiftRight_add]
  have h88 : 248 + (8 - entropy.length * 8 / 32) = 256 - entropy.length * 8 / 32 := by omega
  rw [h88]

/-- C5: for entropy of a supported strength and a 2048-word wordlist,
`entropy_to_mnemonic` yields exactly `(strength + strength/32)/11` words; the
`i`-th word indexes the wordlist with the `i`-th 11-bit group (most
significant first) of the entropy bits followed by the top `strength/32` bits
of SHA-256(entropy) — the code reads those checksum bits off the first digest
byte, which agrees with the top bits of the full digest. -/
theorem C5_entropy_to_mnemonic (entropy : List Nat) (wordlist : List String)
    (hstr : entropy.length = 16 ∨ entropy.length = 20 ∨ entropy.length = 24 ∨
      entropy.length = 28 ∨ entropy.length = 32)
    (hwl : wordlist.length = 2048) :
    ∃ m, entropy_to_mnemonic entropy wordlist = some m ∧
      m.length = (entropy.length * 8 + entropy.length * 8 / 32) / 11 ∧
      mnemonicCombined entropy = specCombined entropy ∧
      ∀ i < (entropy.length * 8 + entropy.length * 8 / 32) / 11,
        m[i]? = wordlist[wordIndexAt (specCombined entropy)
          (entropy.length * 8 + entropy.length * 8 / 32) i]? := by
  have hcomb : mnemonicCombined entropy = specCombined entropy := by
    apply mnemonicCombined_eq_specCombined
    rcases hstr with h | h | h | h | h <;> simp [h]
  have hmap := entropy_to_mnemonic_eq_map entropy wordlist (by omega)
  refine ⟨_, hmap, ?_, hcomb, ?_⟩
  · rw [List.length_map, List.length_range]
  intro i hi
  rw [List.getElem?_map, List.getElem?_range hi]
  have hidx : wordIndexAt (mnemonicCombined entropy)
      (entropy.length * 8 + entropy.length * 8 / 32) i < wordlist.length := by
    calc wordIndexAt _ _ i ≤ 2047 := Nat.and_le_right
      _ < wordlist.length := by omega
  simp only [Option.map_some']
  rw [List.getD_eq_getElem wordlist "" hidx, ← hcomb, List.getElem?_eq_getElem hidx]

/-- Witness for C5 at a concrete 128-bit entropy and 2048-entry wordlist. -/
theorem C5_entropy_to_mnemonic_witness :
    ((List.replicate 16 0 : List Nat).length = 16 ∨
      (List.replicate 16 0 : List Nat).length = 20 ∨
      (List.replicate 16 0 : List Nat).length = 24 ∨
      (List.replicate 16 0 : List Nat).length = 28 ∨
      (List.replicate 16 0 : List Nat).length = 32) ∧
    (List.replicate 2048 "abandon").length = 2048 ∧
    (∃ m, entropy_to_mnemonic (List.replicate 16 0) (List.replicate 2048 "abandon") = some m ∧
      m.length = ((List.replicate 16 0 : List Nat).length * 8 +
        (List.replicate 16 0 : List Nat).length * 8 / 32) / 11 ∧
      mnemonicCombined (List.replicate 16 0) = specCombined (List.replicate 16 0) ∧
      ∀ i < ((List.replicate 16 0 : List Nat).length * 8 +
          (List.replicate 16 0 : List Nat).length * 8 / 32) / 11,
        m[i]? = (List.replicate 2048 "abandon")[wordIndexAt (specCombined (List.replicate 16 0))
          ((List.replicate 16 0 : List Nat).length * 8 +
            (List.replicate 16 0 : List Nat).length * 8 / 32) i]?) :=
  ⟨Or.inl (by simp), List.length_replicate 2048 "abandon",
    C5_entropy_to_mnemonic (List.replicate 16 0) (List.replicate 2048 "abandon")
      (Or.inl (by simp)) (List.length_replicate 2048 "abandon")⟩

/-- Helper: on an empty wordlist, `entropy_to_mnemonic` fails with an index
error as soon as a 16-byte entropy demands 12 words. -/
theorem entropy_to_mnemonic_nil_of_len16 (entropy : List Nat) (he : entropy.length = 16) :
    entropy_to_mnemonic entropy ([] : List String) = none := by
  simp only [entropy_to_mnemonic, he]
  norm_num
  rfl

/-- C6 amended: `entropy_to_mnemonic` itself performs no wordlist-size check —
any wordlist with at least 2048 entries yields a mnemonic; the 2048-entry
validation lives in `load_wordlist`, which rejects every other length with a
`ValueError`; a too-short wordlist makes `entropy_to_mnemonic` fail only with
an `IndexError` when some 11-bit index is out of range. -/
theorem C6_wordlist_validation :
    (∀ (entropy : List Nat) (wordlist : List String), 2048 ≤ wordlist.length →
      (entropy_to_mnemonic entropy wordlist).isSome = true) ∧
    (∀ words : List String, words.length ≠ 2048 →
      load_wordlist words = Except.error "Wordlist must contain 2048 words") ∧
    (∀ entropy : List Nat, entropy.length = 16 →
      entropy_to_mnemonic entropy ([] : List String) = none) :=
  ⟨entropy_to_mnemonic_isSome,
   fun words hw => by simp [load_wordlist, hw],
   entropy_to_mnemonic_nil_of_len16⟩

/-- Counterexample to C6 as stated: a 2049-entry wordlist does not have 2048
entries, yet `entropy_to_mnemonic` produces a mnemonic instead of failing. -/
theorem C6_counterexample :
    (List.replicate 2049 "x").length ≠ 2048 ∧
    (entropy_to_mnemonic (List.replicate 16 0) (List.replicate 2049 "x")).isSome = true :=
  ⟨by rw [List.length_replicate]; omega,
   entropy_to_mnemonic_isSome (List.replicate 16 0) (List.replicate 2049 "x")
     (by rw [List.length_replicate]; omega)⟩

/-- Witness for the amended C6 at concrete inputs. -/
theorem C6_wordlist_validation_witness :
    (2048 ≤ (List.replicate 2048 "x").length ∧
      (entropy_to_mnemonic ([] : List Nat) (List.replicate 2048 "x")).isSome = true) ∧
    ((List.replicate 3 "x").length ≠ 2048 ∧
      load_wordlist (List.replicate 3 "x") = Except.error "Wordlist must contain 2048 words") ∧
    ((List.replicate 16 0 : List Nat).length = 16 ∧
      entropy_to_mnemonic (List.replicate 16 0) ([] : List String) = none) :=
  ⟨⟨by rw [List.length_replicate],
    C6_wordlist_validation.1 [] (List.replicate 2048 "x") (by rw [List.length_replicate])⟩,
   ⟨by rw [List.length_replicate]; omega,
    C6_wordlist_validation.2.1 (List.replicate 3 "x") (by rw [List.length_replicate]; omega)⟩,
   ⟨by simp, C6_wordlist_validation.2.2 (List.replicate 16 0) (by simp)⟩⟩

theorem txBatches_nil {α : Type} (k : Nat) : txBatches ([] : List α) k = [] := by
  unfold txBatches
  have h0 : (List.length ([] : List α) + k - 1) / k = 0 := by
    cases k with
    | zero => simp
    | succ k' => simpa using Nat.div_eq_of_lt (Nat.lt_succ_self k')
  rw [h0]
  rfl

theorem txBatches_count {α : Type} (l : List α) (k : Nat) (hk : 1 ≤ k) (hl : l ≠ []) :
    (l.length + k - 1) / k = ((l.drop k).length + k - 1) / k + 1 := by
  have hlen : 1 ≤ l.length := by
    cases l with
    | nil => exact absurd rfl hl
    | cons a as => simp
  rw [List.length_drop]
  by_cases hlk : k < l.length
  · have h1 : l.length + k - 1 = (l.length - k + k - 1) + k := by omega
    rw [h1, Nat.add_div_right (l.length - k + k - 1) (by omega)]
  · have h2 : l.length - k = 0 := by omega
    have h1 : l.length + k - 1 = (l.length - 1) + k := by omega
    rw [h2, h1, Nat.add_div_right (l.length - 1) (by omega), Nat.zero_add,
      Nat.div_eq_of_lt (by omega), Nat.div_eq_of_lt (by omega)]


theorem txBatches_cons {α : Type} (l : List α) (k : Nat) (hk : 1 ≤ k) (hl : l ≠ []) :
    txBatches l k = l.take k :: txBatches (l.drop k) k := by
  unfold txBatches
  rw [txBatches_count l k hk hl, List.range_succ_eq_map, List.map_cons, List.map_map]
  congr 1
  · simp
  · apply List.map_congr_left
    intro b _
    simp only [Function.comp_apply, List.drop_drop]
    congr 2
    rw [Nat.succ_mul]
    ring

theorem batchAssignments_nil {α : Type} (base : Int) (k : Nat) :
    batchAssignments base ([] : List α) k = [] := by
  unfold batchAssignments
  rw [txBatches_nil]
  rfl

theorem batchAssignments_cons {α : Type} (base : Int) (l : List α) (k : Nat)
    (hk : 1 ≤ k) (hl : l ≠ []) :
    batchAssignments base l k =
      (l.take k).enum.map (fun ir => (ir.2, base + 1 + (ir.1 : Int))) ++
        batchAssignments (base + (k : Int)) (l.drop k) k := by
  unfold batchAssignments
  rw [txBatches_cons l k hk hl, List.enum_cons', List.flatMap_cons, List.flatMap_map]
  congr 1
  · apply List.map_congr_left
    intro ir _
    simp
  · have hfun : (fun bB : Nat × List α =>
        (Prod.map (· + 1) (@id (List α)) bB).2.enum.map
          (fun ir => (ir.2, base + 1 +
            (((Prod.map (· + 1) (@id (List α)) bB).1 * k : Nat) : Int) + (ir.1 : Int)))) =
        (fun bB : Nat × List α => bB.2.enum.map
          (fun ir => (ir.2, (base + (k : Int)) + 1 + ((bB.1 * k : Nat) : Int) + (ir.1 : Int)))) := by
      funext bB
      cases bB with
      | mk b B =>
        simp only [Prod.map_apply, id_eq]
        apply List.map_congr_left
        intro ir _
        simp only [Prod.mk.injEq, true_and]
        push_cast
        ring
    exact congrArg _ hfun

theorem batchAssignments_eq_enum {α : Type} (k : Nat) (hk : 1 ≤ k) :
    ∀ (n : Nat) (l : List α) (base : Int), l.length ≤ n →
      batchAssignments base l k = l.enum.map (fun p => (p.2, base + 1 + (p.1 : Int))) := by
  intro n
  induction n with
  | zero =>
    intro l base hn
    have h0 : l = [] := List.eq_nil_of_length_eq_zero (by omega)
    subst h0
    simp [batchAssignments_nil]
  | succ n ih =>
    intro l base hn
    by_cases hl : l = []
    · subst hl; simp [batchAssignments_nil]
    · have hlen : 1 ≤ l.length := by
        cases l with
        | nil => exact absurd rfl hl
        | cons a as => simp
      rw [batchAssignments_cons base l k hk hl,
        ih (l.drop k) (base + (k : Int)) (by rw [List.length_drop]; omega)]
      conv_rhs => rw [← List.take_append_drop k l]
      rw [List.enum_append, List.map_append]
      congr 1
      rw [List.enumFrom_eq_map_enum, List.map_map]
      apply List.map_congr_left
      intro p hp
      have hne : l.drop k ≠ [] := by
        intro h0
        rw [h0] at hp
        simp at hp
      have hkl : k < l.length := by
        by_contra hno
        exact hne (List.drop_eq_nil_of_le (by omega))
      have ht : (l.take k).length = k := by
        rw [List.length_take]
        omega
      rw [ht]
      cases p with
      | mk j a =>
        simp only [Function.comp_apply, Prod.map_apply, id_eq, Prod.mk.injEq, true_and]
        push_cast
        ring

/-- C2: with the nonce fetched up front, `send_multiple_transactions` gives
the recipient at batch index `b`, position `i`, the nonce
`base_nonce + 1 + b * batch_size + i`; globally the `j`-th recipient gets
`base_nonce + 1 + j`, so the assigned nonces are exactly the consecutive run
`base_nonce + 1, …, base_nonce + n` with none reused or skipped; with
`base_nonce = 10`, 7 recipients and `batch_size = 5`, batch 0 holds nonces
11–15 and batch 1 holds 16–17. -/
theorem C2_batch_nonce_assignment {α : Type} (base_nonce : Int) (recipients : List α)
    (batch_size : Nat) (hk : 1 ≤ batch_size) :
    batchAssignments base_nonce recipients batch_size =
      recipients.enum.map (fun p => (p.2, base_nonce + 1 + (p.1 : Int))) ∧
    (batchAssignments base_nonce recipients batch_size).map Prod.snd =
      (List.range recipients.length).map (fun j : Nat => base_nonce + 1 + (j : Int)) ∧
    txBatches (List.range 7) 5 = [[0, 1, 2, 3, 4], [5, 6]] ∧
    batchAssignments 10 (List.range 7) 5 =
      [(0, 11), (1, 12), (2, 13), (3, 14), (4, 15), (5, 16), (6, 17)] := by
  have hmain := batchAssignments_eq_enum batch_size hk recipients.length recipients
    base_nonce le_rfl
  refine ⟨hmain, ?_, by decide, by decide⟩
  rw [hmain, List.map_map]
  apply List.ext_getElem?
  intro i
  by_cases hi : i < recipients.length
  · simp [List.getElem?_enum, List.getElem?_eq_getElem hi, List.getElem?_range hi]
  · have h1 : recipients[i]? = none := List.getElem?_eq_none (by omega)
    have h2 : (List.range recipients.length)[i]? = none :=
      List.getElem?_eq_none (by simpa using by omega)
    simp [List.getElem?_enum, h1, h2]

/-- Witness for C2 at the spec's concrete example. -/
theorem C2_batch_nonce_assignment_witness :
    1 ≤ 5 ∧
    (batchAssignments (10 : Int) (List.range 7) 5 =
      (List.range 7).enum.map (fun p => (p.2, (10 : Int) + 1 + (p.1 : Int))) ∧
    (batchAssignments (10 : Int) (List.range 7) 5).map Prod.snd =
      (List.range (List.range 7).length).map (fun j : Nat => (10 : Int) + 1 + (j : Int)) ∧
    txBatches (List.range 7) 5 = [[0, 1, 2, 3, 4], [5, 6]] ∧
    batchAssignments 10 (List.range 7) 5 =
      [(0, 11), (1, 12), (2, 13), (3, 14), (4, 15), (5, 16), (6, 17)]) :=
  ⟨by decide, C2_batch_nonce_assignment 10 (List.range 7) 5 (by decide)⟩

/-- C3: both the signature and the SHA-256 transaction hash are computed over
the canonical serialization of the six-field record (from, to, amount, nonce,
fee tier, timestamp); `signature` and `public_key` are only attached to the
record afterwards, hash and signature are unchanged when the public key
changes, and the signed envelope's serialization is never the hashed bytes. -/
theorem C3_hash_signature_over_unsigned (sign : List Nat → List Nat)
    (selfAddress pk pk' to_address : List Char) (amount : ℚ) (nonce : Int) (ts : List Char) :
    ((create_transaction sign selfAddress pk to_address amount nonce ts).2 =
      sha256hex (strToBytes (unsignedTxJson selfAddress to_address (amountMicroStr amount)
        nonce (ouTag amount) ts))) ∧
    ((create_transaction sign selfAddress pk to_address amount nonce ts).1.signature =
      base64encode (sign (strToBytes (unsignedTxJson selfAddress to_address
        (amountMicroStr amount) nonce (ouTag amount) ts)))) ∧
    ((create_transaction sign selfAddress pk to_address amount nonce ts).1.public_key = pk) ∧
    ((create_transaction sign selfAddress pk to_address amount nonce ts).2 =
      (create_transaction sign selfAddress pk' to_address amount nonce ts).2) ∧
    ((create_transaction sign selfAddress pk to_address amount nonce ts).1.signature =
      (create_transaction sign selfAddress pk' to_address amount nonce ts).1.signature) ∧
    (signedTxJson (create_transaction sign selfAddress pk to_address amount nonce ts).1 ≠
      unsignedTxJson selfAddress to_address (amountMicroStr amount) nonce (ouTag amount) ts) := by
  refine ⟨rfl, rfl, rfl, rfl, rfl, ?_⟩
  intro h
  have hlen := congrArg List.length h
  simp only [create_transaction, signedTxJson, unsignedTxJson, txJsonCore,
    List.length_append] at hlen
  have h14 : (",\"signature\":\"".toList).length = 14 := rfl
  have h16 : ("\",\"public_key\":\"".toList).length = 16 := rfl
  have h2 : ("\"\x7d".toList).length = 2 := rfl
  have h1 : ("\x7d".toList).length = 1 := rfl
  rw [h14, h16, h2, h1] at hlen
  omega

/-- C4 (the claim is the intent, the code slips): inside `get_status` the
staging-pool request is issued as `_request('GET', '/staging', 5)`, binding
`5` to the `data` parameter of a GET (where it is ignored) and leaving
`timeout` at the default 10 — not the claimed 5 seconds.  The correctly
written call in `get_pending_transactions` does use `timeout=5`. -/
theorem C4_staging_timeout_bug :
    (∀ (addr : List Char) (st : WalletState) (now : ℚ) (bal : HttpResp BalanceJson)
      (stag : HttpResp StagingJson),
      (get_status addr st true now bal stag).2.2 = [balanceCall addr, stagingCallInGetStatus]) ∧
    stagingCallInGetStatus.timeout = 10 ∧
    stagingCallInGetStatus.payload = ReqPayload.intPayload 5 ∧
    stagingCallInGetPending.timeout = 5 ∧
    (balanceCall []).timeout = 10 ∧
    ¬ stagingCallInGetStatus.timeout = 5 := by
  refine ⟨?_, rfl, rfl, rfl, rfl, by decide⟩
  intro addr st now bal stag
  simp [get_status]

/-- C9: with a populated cache (`balance_cache` set), any two
`get_status(force_refresh=False)` calls whose `now` lies within 30 seconds of
`last_update` return the identical cached `(nonce, balance)` pair, leave the
state untouched, and issue no request; `force_refresh=True` always issues the
balance and staging requests regardless of cache age. -/
theorem C9_cache_staleness (addr : List Char) (st : WalletState) (b : ℚ) (now1 now2 : ℚ)
    (bal1 bal2 : HttpResp BalanceJson) (stag1 stag2 : HttpResp StagingJson)
    (hb : st.balance_cache = some b)
    (h1 : now1 - st.last_update < 30) (h2 : now2 - st.last_update < 30) :
    get_status addr st false now1 bal1 stag1 = (st, (st.nonce_cache, some b), []) ∧
    get_status addr (get_status addr st false now1 bal1 stag1).1 false now2 bal2 stag2 =
      (st, (st.nonce_cache, some b), []) ∧
    (∀ (st' : WalletState) (now : ℚ) (bal : HttpResp BalanceJson) (stag : HttpResp StagingJson),
      (get_status addr st' true now bal stag).2.2 =
        [balanceCall addr, stagingCallInGetStatus]) := by
  have hfirst : get_status addr st false now1 bal1 stag1 = (st, (st.nonce_cache, some b), []) := by
    rw [← hb]
    simp [get_status, hb, h1]
  refine ⟨hfirst, ?_, ?_⟩
  · rw [hfirst]
    rw [← hb]
    simp [get_status, hb, h2]
  · intro st' now bal stag
    simp [get_status]

/-- Witness for C9 at a concrete cached state inside the 30-second window. -/
theorem C9_cache_staleness_witness :
    (WalletState.mk (some 3) (some 5) 100).balance_cache = some 5 ∧
    (110 : ℚ) - (WalletState.mk (some 3) (some 5) 100).last_update < 30 ∧
    (120 : ℚ) - (WalletState.mk (some 3) (some 5) 100).last_update < 30 ∧
    (get_status [] (WalletState.mk (some 3) (some 5) 100) false 110 ⟨0, [], none⟩ ⟨0, [], none⟩ =
        (WalletState.mk (some 3) (some 5) 100, (some 3, some 5), []) ∧
      get_status []
        (get_status [] (WalletState.mk (some 3) (some 5) 100) false 110
          ⟨0, [], none⟩ ⟨0, [], none⟩).1 false 120 ⟨0, [], none⟩ ⟨0, [], none⟩ =
        (WalletState.mk (some 3) (some 5) 100, (some 3, some 5), []) ∧
      (∀ (st' : WalletState) (now : ℚ) (bal : HttpResp BalanceJson) (stag : HttpResp StagingJson),
        (get_status [] st' true now bal stag).2.2 =
          [balanceCall [], stagingCallInGetStatus])) :=
  ⟨rfl, by norm_num, by norm_num,
    C9_cache_staleness [] (WalletState.mk (some 3) (some 5) 100) 5 110 120
      ⟨0, [], none⟩ ⟨0, [], none⟩ ⟨0, [], none⟩ ⟨0, [], none⟩ rfl
      (by norm_num) (by norm_num)⟩

/-- Counterexample to C1 as stated: on a 200 plain-text body `"abc 5"` (first
token not a valid balance number), `get_status` returns `(some 5, some 0)` —
substituting zero for the malformed balance — not `(none, none)`. -/
theorem C1_counterexample :
    (get_status [] ⟨none, none, 0⟩ true 100 ⟨200, "abc 5".toList, none⟩ ⟨0, [], none⟩).2.1 =
      (some 5, some 0) ∧
    (get_status [] ⟨none, none, 0⟩ true 100 ⟨200, "abc 5".toList, none⟩ ⟨0, [], none⟩).2.1 ≠
      ((none, none) : Option Int × Option ℚ) := by
  constructor <;> decide

/-- C1 amended: on a 200 unstructured two-token body, a first token failing
the dots-stripped digit check yields balance `0.0` and a second token failing
`isdigit` yields nonce `0` (zero substitution, cache timestamp refreshed);
`(none, none)` arises only when the body has fewer than two tokens, or when
the first token passes the digit check yet `float()` raises (two or more
dots). -/
theorem C1_plaintext_token_handling (addr : List Char) (st : WalletState) (now : ℚ)
    (stag : HttpResp StagingJson) :
    (∀ bal : HttpResp BalanceJson, bal.status = 200 → bal.json = none → bal.text ≠ [] →
      2 ≤ (pySplit bal.text).length →
      balTokenDigitCheck ((pySplit bal.text).getD 0 []) = false →
      pyIsDigit ((pySplit bal.text).getD 1 []) = false →
      (get_status addr st true now bal stag).2.1 = (some 0, some 0) ∧
      (get_status addr st true now bal stag).1 = ⟨some 0, some 0, now⟩) ∧
    (∀ bal : HttpResp BalanceJson, bal.status = 200 → bal.json = none → bal.text ≠ [] →
      (pySplit bal.text).length < 2 →
      (get_status addr st true now bal stag).2.1 = (none, none)) ∧
    (∀ bal : HttpResp BalanceJson, bal.status = 200 → bal.json = none → bal.text ≠ [] →
      2 ≤ (pySplit bal.text).length →
      floatParseRaises ((pySplit bal.text).getD 0 []) = true →
      (get_status addr st true now bal stag).2.1 = (none, none)) := by
  refine ⟨?_, ?_, ?_⟩
  · intro bal h200 hjson htext hlen hbad0 hbad1
    have hbad0' : balTokenDigitCheck ((pySplit bal.text)[0]?.getD []) = false := by
      simpa using hbad0
    have hbad1' : pyIsDigit ((pySplit bal.text)[1]?.getD []) = false := by
      simpa using hbad1
    have hfl' : floatParseRaises ((pySplit bal.text)[0]?.getD []) = false := by
      simp [floatParseRaises, hbad0']
    constructor <;> simp [get_status, h200, hjson, htext, hlen, hfl', hbad0', hbad1']
  · intro bal h200 hjson htext hshort
    have hnot : ¬ 2 ≤ (pySplit bal.text).length := by omega
    simp [get_status, h200, hjson, htext, hnot]
  · intro bal h200 hjson htext hlen hfl
    have hfl' : floatParseRaises ((pySplit bal.text)[0]?.getD []) = true := by
      simpa using hfl
    simp [get_status, h200, hjson, htext, hlen, hfl']

/-- Witness for amended C1: `"abc xyz"` zero-fills both caches, `"abc"` (one
token) and `"1..2 5"` (float exception) give `(none, none)`. -/
theorem C1_plaintext_token_handling_witness :
    ((get_status [] ⟨none, none, 0⟩ true 100 ⟨200, "abc xyz".toList, none⟩ ⟨0, [], none⟩).2.1 =
      (some 0, some 0)) ∧
    ((get_status [] ⟨none, none, 0⟩ true 100 ⟨200, "abc".toList, none⟩ ⟨0, [], none⟩).2.1 =
      (none, none)) ∧
    ((get_status [] ⟨none, none, 0⟩ true 100 ⟨200, "1..2 5".toList, none⟩ ⟨0, [], none⟩).2.1 =
      (none, none)) :=
  ⟨((C1_plaintext_token_handling [] ⟨none, none, 0⟩ 100 ⟨0, [], none⟩).1
      ⟨200, "abc xyz".toList, none⟩ rfl rfl (by decide) (by decide) (by decide) (by decide)).1,
   (C1_plaintext_token_handling [] ⟨none, none, 0⟩ 100 ⟨0, [], none⟩).2.1
      ⟨200, "abc".toList, none⟩ rfl rfl (by decide) (by decide),
   (C1_plaintext_token_handling [] ⟨none, none, 0⟩ 100 ⟨0, [], none⟩).2.2
      ⟨200, "1..2 5".toList, none⟩ rfl rfl (by decide) (by decide) (by decide)⟩

/-- C8: `send_transaction` raises `InvalidAddress`/`InvalidAmount` before any
request is issued (the call list is empty on those paths); after the forced
status refresh, a fetched balance below the requested amount raises
`InsufficientBalance` carrying the balance and the amount, and the only
requests ever issued on that path are the two status queries — no
`/send-tx` submission. -/
theorem C8_send_validation_and_balance (sign : List Nat → List Nat)
    (selfAddress public_key : List Char) (st : WalletState) (now : ℚ) (ts : List Char)
    (balResp : HttpResp BalanceJson) (stagResp : HttpResp StagingJson)
    (postResp : HttpResp SendTxJson) (to_address : List Char) (amount : ℚ) :
    (ADDRESS_PATTERN to_address = false →
      send_transaction sign selfAddress public_key st now ts balResp stagResp postResp
        to_address amount = (Except.error OctraWalletError.invalidAddress, st, [])) ∧
    (ADDRESS_PATTERN to_address = true → AMOUNT_PATTERN amount = false →
      send_transaction sign selfAddress public_key st now ts balResp stagResp postResp
        to_address amount = (Except.error OctraWalletError.invalidAmount, st, [])) ∧
    (∀ (n : Int) (b : ℚ),
      ADDRESS_PATTERN to_address = true → AMOUNT_PATTERN amount = true → 0 < amount →
      (get_status selfAddress st true now balResp stagResp).2.1 = (some n, some b) →
      b < amount →
      (send_transaction sign selfAddress public_key st now ts balResp stagResp postResp
          to_address amount).1 =
        Except.error (OctraWalletError.insufficientBalance b amount) ∧
      (send_transaction sign selfAddress public_key st now ts balResp stagResp postResp
          to_address amount).2.2 = [balanceCall selfAddress, stagingCallInGetStatus] ∧
      ∀ c ∈ (send_transaction sign selfAddress public_key st now ts balResp stagResp postResp
          to_address amount).2.2, c.path ≠ "/send-tx".toList) := by
  refine ⟨?_, ?_, ?_⟩
  · intro haddr
    simp [send_transaction, haddr]
  · intro haddr hamt
    simp [send_transaction, haddr, hamt]
  · intro n b haddr hamt hpos hgs hlt
    have hgt : ¬ amount ≤ 0 := not_le.mpr hpos
    have h1 : (get_status selfAddress st true now balResp stagResp).2.1.1 = some n := by
      rw [hgs]
    have h2 : (get_status selfAddress st true now balResp stagResp).2.1.2 = some b := by
      rw [hgs]
    have hcalls : (get_status selfAddress st true now balResp stagResp).2.2 =
        [balanceCall selfAddress, stagingCallInGetStatus] := by
      simp [get_status]
    refine ⟨?_, ?_, ?_⟩
    · simp [send_transaction, haddr, hamt, hgt, h1, h2, hlt]
    · simp [send_transaction, haddr, hamt, hgt, h1, h2, hlt, hcalls]
    · intro c hc
      simp [send_transaction, haddr, hamt, hgt, h1, h2, hlt, hcalls] at hc
      rcases hc with h | h
      · subst h
        intro heq
        have hlen2 := congrArg List.length heq
        simp [balanceCall] at hlen2
      · subst h
        decide

/-- Witness for C8: a malformed address and a negative amount are rejected
with no requests; a fetched balance 2 against amount 5 raises
`InsufficientBalance` with only the two status queries issued. -/
theorem C8_send_validation_and_balance_witness :
    (ADDRESS_PATTERN "x".toList = false ∧
      send_transaction (fun bs => bs) [] [] ⟨none, none, 0⟩ 0 [] ⟨200, [], some ⟨7, 2⟩⟩
          ⟨0, [], none⟩ ⟨0, [], none⟩ "x".toList 5 =
        (Except.error OctraWalletError.invalidAddress, ⟨none, none, 0⟩, [])) ∧
    (ADDRESS_PATTERN ('o' :: 'c' :: 't' :: List.replicate 44 '1') = true ∧
      AMOUNT_PATTERN (-1) = false ∧
      send_transaction (fun bs => bs) [] [] ⟨none, none, 0⟩ 0 [] ⟨200, [], some ⟨7, 2⟩⟩
          ⟨0, [], none⟩ ⟨0, [], none⟩ ('o' :: 'c' :: 't' :: List.replicate 44 '1') (-1) =
        (Except.error OctraWalletError.invalidAmount, ⟨none, none, 0⟩, [])) ∧
    ((get_status [] ⟨none, none, 0⟩ true 0 ⟨200, [], some ⟨7, 2⟩⟩ ⟨0, [], none⟩).2.1 =
        (some 7, some 2) ∧
      (2 : ℚ) < 5 ∧
      (send_transaction (fun bs => bs) [] [] ⟨none, none, 0⟩ 0 [] ⟨200, [], some ⟨7, 2⟩⟩
          ⟨0, [], none⟩ ⟨0, [], none⟩ ('o' :: 'c' :: 't' :: List.replicate 44 '1') 5).1 =
        Except.error (OctraWalletError.insufficientBalance 2 5) ∧
      (send_transaction (fun bs => bs) [] [] ⟨none, none, 0⟩ 0 [] ⟨200, [], some ⟨7, 2⟩⟩
          ⟨0, [], none⟩ ⟨0, [], none⟩ ('o' :: 'c' :: 't' :: List.replicate 44 '1') 5).2.2 =
        [balanceCall [], stagingCallInGetStatus] ∧
      ∀ c ∈ (send_transaction (fun bs => bs) [] [] ⟨none, none, 0⟩ 0 [] ⟨200, [], some ⟨7, 2⟩⟩
          ⟨0, [], none⟩ ⟨0, [], none⟩ ('o' :: 'c' :: 't' :: List.replicate 44 '1') 5).2.2,
        c.path ≠ "/send-tx".toList) :=
  ⟨⟨by decide,
    (C8_send_validation_and_balance (fun bs => bs) [] [] ⟨none, none, 0⟩ 0 []
      ⟨200, [], some ⟨7, 2⟩⟩ ⟨0, [], none⟩ ⟨0, [], none⟩ "x".toList 5).1 (by decide)⟩,
   ⟨by decide, by decide,
    (C8_send_validation_and_balance (fun bs => bs) [] [] ⟨none, none, 0⟩ 0 []
      ⟨200, [], some ⟨7, 2⟩⟩ ⟨0, [], none⟩ ⟨0, [], none⟩
      ('o' :: 'c' :: 't' :: List.replicate 44 '1') (-1)).2.1 (by decide) (by decide)⟩,
   by decide, by decide,
   (C8_send_validation_and_balance (fun bs => bs) [] [] ⟨none, none, 0⟩ 0 []
      ⟨200, [], some ⟨7, 2⟩⟩ ⟨0, [], none⟩ ⟨0, [], none⟩
      ('o' :: 'c' :: 't' :: List.replicate 44 '1') 5).2.2 7 2 (by decide)
      (by simp [AMOUNT_PATTERN]; norm_num) (by decide) (by decide) (by decide)⟩

theorem pattern_body_implies_verify (s : List Char) (hs : ADDRESS_PATTERN_body s = true) :
    verify_address_format s = true ∧ s.length = 47 := by
  simp only [ADDRESS_PATTERN_body, Bool.and_eq_true, decide_eq_true_eq] at hs
  obtain ⟨⟨h3, h47⟩, hall⟩ := hs
  refine ⟨?_, h47⟩
  unfold verify_address_format
  rw [if_neg (by simp [h3]), if_neg (by omega)]
  simpa only [show addressClassChars = BASE58_ALPHABET by decide] using hall

theorem verify_false_of_bad_char (s : List Char) (c : Char) (hc : c ∈ s.drop 3)
    (hbad : c ∉ BASE58_ALPHABET) : verify_address_format s = false := by
  unfold verify_address_format
  split_ifs with h1 h2
  · rfl
  · rfl
  · rw [Bool.eq_false_iff]
    intro hall
    rw [List.all_eq_true] at hall
    exact hbad (by simpa using hall c hc)

/-- Counterexample to C10 as stated: Python's `$` lets `re.match` accept
"oct" + 44 base58 characters + one trailing newline — total length 48, not
47 — and `verify_address_format` rejects that string, so the send validation
is not strictly stronger than the format check. -/
theorem C10_counterexample :
    ADDRESS_PATTERN ('o' :: 'c' :: 't' :: (List.replicate 44 '1' ++ ['\n'])) = true ∧
    ('o' :: 'c' :: 't' :: (List.replicate 44 '1' ++ ['\n'])).length = 48 ∧
    verify_address_format ('o' :: 'c' :: 't' :: (List.replicate 44 '1' ++ ['\n'])) = false := by
  refine ⟨by decide, by decide, by decide⟩

/-- C10 amended: the send operations accept an address iff it is "oct"
followed by exactly 44 base58 characters, alone (length 47) or followed by
one trailing newline (length 48, `re.match`'s `$`).  The two validations are
incomparable rather than strictly ordered: every newline-free match passes
`verify_address_format`, but the trailing-newline variant is accepted by the
sends while `verify_address_format` rejects it; conversely "oct" plus
seventeen `'1'`s passes `verify_address_format` yet `send_transaction`
rejects it as an invalid address before any request. -/
theorem C10_pattern_vs_verify (sign : List Nat → List Nat)
    (selfAddress public_key : List Char) (st : WalletState) (now : ℚ) (ts : List Char)
    (balResp : HttpResp BalanceJson) (stagResp : HttpResp StagingJson)
    (postResp : HttpResp SendTxJson) (amount : ℚ) :
    (∀ s : List Char, ADDRESS_PATTERN s = true →
      (verify_address_format s = true ∧ s.length = 47) ∨
      (s.getLast? = some '\n' ∧ s.length = 48 ∧ verify_address_format s = false ∧
        verify_address_format s.dropLast = true ∧ s.dropLast.length = 47)) ∧
    addressClassChars = BASE58_ALPHABET ∧
    verify_address_format ('o' :: 'c' :: 't' :: List.replicate 17 '1') = true ∧
    ADDRESS_PATTERN ('o' :: 'c' :: 't' :: List.replicate 17 '1') = false ∧
    send_transaction sign selfAddress public_key st now ts balResp stagResp postResp
        ('o' :: 'c' :: 't' :: List.replicate 17 '1') amount =
      (Except.error OctraWalletError.invalidAddress, st, []) := by
  refine ⟨?_, by decide, by decide, by decide, ?_⟩
  · intro s hs
    simp only [ADDRESS_PATTERN, Bool.or_eq_true, Bool.and_eq_true, decide_eq_true_eq] at hs
    rcases hs with hbody | ⟨hlast, hbody⟩
    · exact Or.inl (pattern_body_implies_verify s hbody)
    · obtain ⟨hverify, h47⟩ := pattern_body_implies_verify s.dropLast hbody
      have hsplit : s.dropLast ++ ['\n'] = s :=
        List.dropLast_append_getLast? '\n' hlast
      have h48 : s.length = 48 := by
        have := congrArg List.length hsplit
        simp only [List.length_append, List.length_cons, List.length_nil] at this
        omega
      refine Or.inr ⟨hlast, h48, ?_, hverify, h47⟩
      apply verify_false_of_bad_char s '\n'
      · rw [← hsplit, List.drop_append_of_le_length (by omega)]
        exact List.mem_append_right _ (List.mem_singleton.mpr rfl)
      · decide
  · unfold send_transaction
    rw [if_pos (by decide)]

/-- Witness for amended C10: the pattern implication applied at the length-47
address ("oct" + 44 ones) and at its trailing-newline variant, alongside the
concrete separating examples. -/
theorem C10_pattern_vs_verify_witness :
    ADDRESS_PATTERN ('o' :: 'c' :: 't' :: List.replicate 44 '1') = true ∧
    ADDRESS_PATTERN ('o' :: 'c' :: 't' :: (List.replicate 44 '1' ++ ['\n'])) = true ∧
    ((verify_address_format ('o' :: 'c' :: 't' :: List.replicate 44 '1') = true ∧
        ('o' :: 'c' :: 't' :: List.replicate 44 '1').length = 47) ∨
      (('o' :: 'c' :: 't' :: List.replicate 44 '1').getLast? = some '\n' ∧
        ('o' :: 'c' :: 't' :: List.replicate 44 '1').length = 48 ∧
        verify_address_format ('o' :: 'c' :: 't' :: List.replicate 44 '1') = false ∧
        verify_address_format ('o' :: 'c' :: 't' :: List.replicate 44 '1').dropLast = true ∧
        ('o' :: 'c' :: 't' :: List.replicate 44 '1').dropLast.length = 47)) ∧
    ((verify_address_format ('o' :: 'c' :: 't' :: (List.replicate 44 '1' ++ ['\n'])) = true ∧
        ('o' :: 'c' :: 't' :: (List.replicate 44 '1' ++ ['\n'])).length = 47) ∨
      (('o' :: 'c' :: 't' :: (List.replicate 44 '1' ++ ['\n'])).getLast? = some '\n' ∧
        ('o' :: 'c' :: 't' :: (List.replicate 44 '1' ++ ['\n'])).length = 48 ∧
        verify_address_format ('o' :: 'c' :: 't' :: (List.replicate 44 '1' ++ ['\n'])) = false ∧
        verify_address_format
          ('o' :: 'c' :: 't' :: (List.replicate 44 '1' ++ ['\n'])).dropLast = true ∧
        ('o' :: 'c' :: 't' :: (List.replicate 44 '1' ++ ['\n'])).dropLast.length = 47)) ∧
    verify_address_format ('o' :: 'c' :: 't' :: List.replicate 17 '1') = true ∧
    ADDRESS_PATTERN ('o' :: 'c' :: 't' :: List.replicate 17 '1') = false ∧
    send_transaction (fun bs => bs) [] [] ⟨none, none, 0⟩ 0 [] ⟨0, [], none⟩ ⟨0, [], none⟩
        ⟨0, [], none⟩ ('o' :: 'c' :: 't' :: List.replicate 17 '1') 1 =
      (Except.error OctraWalletError.invalidAddress, ⟨none, none, 0⟩, []) :=
  ⟨by decide, by decide,
   (C10_pattern_vs_verify (fun bs => bs) [] [] ⟨none, none, 0⟩ 0 []
      ⟨0, [], none⟩ ⟨0, [], none⟩ ⟨0, [], none⟩ 1).1
      ('o' :: 'c' :: 't' :: List.replicate 44 '1') (by decide),
   (C10_pattern_vs_verify (fun bs => bs) [] [] ⟨none, none, 0⟩ 0 []
      ⟨0, [], none⟩ ⟨0, [], none⟩ ⟨0, [], none⟩ 1).1
      ('o' :: 'c' :: 't' :: (List.replicate 44 '1' ++ ['\n'])) (by decide),
   (C10_pattern_vs_verify (fun bs => bs) [] [] ⟨none, none, 0⟩ 0 []
      ⟨0, [], none⟩ ⟨0, [], none⟩ ⟨0, [], none⟩ 1).2.2.1,
   (C10_pattern_vs_verify (fun bs => bs) [] [] ⟨none, none, 0⟩ 0 []
      ⟨0, [], none⟩ ⟨0, [], none⟩ ⟨0, [], none⟩ 1).2.2.2.1,
   (C10_pattern_vs_verify (fun bs => bs) [] [] ⟨none, none, 0⟩ 0 []
      ⟨0, [], none⟩ ⟨0, [], none⟩ ⟨0, [], none⟩ 1).2.2.2.2⟩
